import Mathlib

/-!
Shallow embedding of the segmentation and registration pipeline of the
tipburn_quantification repository (src/scripts/segment.py, src/scripts/utils.py,
src/scripts/fluor_cropper.py), with theorems checking the specification's
claims against it.

Conventions: numpy float arithmetic is embedded over the rationals; images are
embedded either pointwise (functions from pixel coordinates) for pointwise
array operations, or as flat pixel lists where whole-array statistics
(min, max, histogram counts) are involved.  Fallible Python code (exceptions)
is embedded in the Except monad over an exception-kind type.  The file first
gives all definitions, then the theorems.
-/

namespace Tipburn

/-! ## Python / numpy primitives -/

/-- Kinds of Python exceptions raised by the embedded fragments. -/
inductive PyErr where
  | indexError : PyErr
  | valueError : PyErr
deriving DecidableEq

instance instDecEqExcept {e a : Type} [DecidableEq e] [DecidableEq a] :
    DecidableEq (Except e a) := fun x y =>
  match x, y with
  | Except.ok u, Except.ok v =>
    if h : u = v then isTrue (by rw [h])
    else isFalse (fun hc => h (by cases hc; rfl))
  | Except.error u, Except.error v =>
    if h : u = v then isTrue (by rw [h])
    else isFalse (fun hc => h (by cases hc; rfl))
  | Except.ok _, Except.error _ => isFalse (fun hc => Except.noConfusion hc)
  | Except.error _, Except.ok _ => isFalse (fun hc => Except.noConfusion hc)

/-- Python list/array indexing l[i] for a non-negative index: raises
IndexError when the index is out of range. -/
def pyIdx (l : List α) (i : ℕ) : Except PyErr α :=
  match l.get? i with
  | some a => Except.ok a
  | none => Except.error PyErr.indexError

/-- Python l[-1]: the last element, raising IndexError on an empty list. -/
def pyLast (l : List α) : Except PyErr α :=
  match l.getLast? with
  | some a => Except.ok a
  | none => Except.error PyErr.indexError

/-- Binary minimum of two rationals, written out as the comparison numpy
performs (no lattice structure, so that it evaluates by unfolding). -/
def qmin (a b : ℚ) : ℚ := if a ≤ b then a else b

/-- Binary maximum of two rationals. -/
def qmax (a b : ℚ) : ℚ := if a ≤ b then b else a

/-- numpy ndarray.min over a flattened non-empty array; numpy raises on an
empty array. -/
def npMin : List ℚ → Except PyErr ℚ
  | [] => Except.error PyErr.valueError
  | x :: xs => Except.ok (xs.foldl qmin x)

/-- numpy ndarray.max over a flattened non-empty array; numpy raises on an
empty array. -/
def npMax : List ℚ → Except PyErr ℚ
  | [] => Except.error PyErr.valueError
  | x :: xs => Except.ok (xs.foldl qmax x)

/-! ## segment.merge_masks (src/scripts/segment.py lines 148-163)

The function is a pointwise composition of numpy masked assignments:
`substep = bg + pheno`, then `comb[substep == 1] = 2`, `comb[substep == 2] = 1`,
`comb[bg == 0] = 0`, starting from `comb = zeros`.  It is embedded pointwise
over integer-valued grids. -/

/-- Embedding of segment.merge_masks, pointwise over integer grids. -/
def merge_masks (bg_mask pheno_mask : ℕ → ℕ → ℤ) : ℕ → ℕ → ℤ := fun i j =>
  let substep := bg_mask i j + pheno_mask i j
  let c1 : ℤ := if substep = 1 then 2 else 0
  let c2 : ℤ := if substep = 2 then 1 else c1
  if bg_mask i j = 0 then 0 else c2

/-! ## segment.shw_segmentation threshold derivation (segment.py lines 133-141)

After `np.histogram` and `scipy.signal.find_peaks`, the code computes the two
marker thresholds from the bin values of the histogram maxima (`max_bins`) and
minima (`min_bins`):

    min_bins = min_bins[min_bins > max_bins[0]]
    lo = max_bins[0] + bg_mod * (min_bins[0] - max_bins[0])
    hi = min_bins[0] + fg_mod * (max_bins[1] - min_bins[0])

The histogram and peak search are upstream library calls, so the embedding is
parametrized by `max_bins` and `min_bins`; each indexing step raises
IndexError exactly where numpy would. -/

/-- Embedding of the threshold derivation of segment.shw_segmentation: returns
the (background, foreground) marker thresholds or the Python exception. -/
def shw_thresholds (max_bins min_bins : List ℚ) (bg_mod fg_mod : ℚ) :
    Except PyErr (ℚ × ℚ) := do
  let m0 ← pyIdx max_bins 0
  let mins := min_bins.filter (fun x => m0 < x)
  let n0 ← pyIdx mins 0
  let m1 ← pyIdx max_bins 1
  pure (m0 + bg_mod * (n0 - m0), n0 + fg_mod * (m1 - n0))

/-! ## segment.barb_thresh (src/scripts/segment.py lines 166-188)

After `np.histogram`, the code finds the histogram peak with `np.argmax`,
derives a bound from the peak height and peak bin value, picks
`ref_val = values[values > bound][-1]` (the count of the last bin exceeding
the bound), then `ref_i = np.where(values == ref_val)[0][0]` (the FIRST index
holding that count) and returns `2 * bins[ref_i] / div`.  The histogram is an
upstream library call, so the embedding is parametrized by the count array
`values` and the bin-value array `bins`. -/

/-- np.argmax: index of the first occurrence of the maximum; raises on an
empty array. -/
def npArgmax (l : List ℕ) : Except PyErr ℕ :=
  match l with
  | [] => Except.error PyErr.valueError
  | x :: xs => Except.ok (List.findIdx (fun v => v = xs.foldl Nat.max x) (x :: xs))

/-- np.where(l == v)[0][0]: first index of l holding value v; IndexError
when v does not occur. -/
def pyWhereFirst (l : List ℕ) (v : ℕ) : Except PyErr ℕ :=
  match l.findIdx? (fun u => u = v) with
  | some i => Except.ok i
  | none => Except.error PyErr.indexError

/-- Embedding of segment.barb_thresh on the histogram counts and bin values. -/
def barb_thresh (values : List ℕ) (bins : List ℚ) (div : ℚ) : Except PyErr ℚ := do
  let peak_i ← npArgmax values
  let val_max ← pyIdx values peak_i
  let bin_max ← pyIdx bins peak_i
  let bound : ℚ := if bin_max ≤ 2/5 then (1/5) * (val_max : ℚ) else (1/2) * (val_max : ℚ)
  let exceed := values.filter (fun v : ℕ => bound < (v : ℚ))
  let ref_val ← pyLast exceed
  let ref_i ← pyWhereFirst values ref_val
  let ref_bin ← pyIdx bins ref_i
  pure (2 * ref_bin / div)

/-- Index of the last element of l satisfying p, when one exists. -/
def lastIdxWhere (l : List ℕ) (p : ℕ → Bool) : Option ℕ :=
  ((List.range l.length).filter
    (fun i => match l.get? i with | some v => p v | none => false)).getLast?

/-- Stated from the words of claim C7, for comparison with barb_thresh: the
threshold is 2 times the bin value of the LAST histogram bin whose count
exceeds the bound, divided by div. -/
def claim_barb_thresh (values : List ℕ) (bins : List ℚ) (div : ℚ) :
    Except PyErr ℚ := do
  let peak_i ← npArgmax values
  let val_max ← pyIdx values peak_i
  let bin_max ← pyIdx bins peak_i
  let bound : ℚ := if bin_max ≤ 2/5 then (1/5) * (val_max : ℚ) else (1/2) * (val_max : ℚ)
  match lastIdxWhere values (fun v => decide (bound < (v : ℚ))) with
  | none => Except.error PyErr.indexError
  | some j => do
    let ref_bin ← pyIdx bins j
    pure (2 * ref_bin / div)

/-- Histogram counts of the claim C7 counterexample: peak 10 in bin 0 and
count 3 in every other of the 100 bins, as np.histogram(hue, bins=100)
produces for a sample with ten values in the first bin and three in each
other bin. -/
def cex_values : List ℕ :=
  [10, 3, 3, 3, 3, 3, 3, 3, 3, 3, 3, 3, 3, 3, 3, 3, 3, 3, 3, 3, 3, 3, 3, 3, 3, 3, 3, 3, 3, 3, 3, 3, 3, 3, 3, 3, 3, 3, 3, 3, 3, 3, 3, 3, 3, 3, 3, 3, 3, 3, 3, 3, 3, 3, 3, 3, 3, 3, 3, 3, 3, 3, 3, 3, 3, 3, 3, 3, 3, 3, 3, 3, 3, 3, 3, 3, 3, 3, 3, 3, 3, 3, 3, 3, 3, 3, 3, 3, 3, 3, 3, 3, 3, 3, 3, 3, 3, 3, 3, 3]

/-- The 101 uniform bin edges over [0, 1] belonging to cex_values. -/
def cex_bins : List ℚ :=
  [0, 1/100, 2/100, 3/100, 4/100, 5/100, 6/100, 7/100, 8/100, 9/100, 10/100, 11/100, 12/100, 13/100, 14/100, 15/100, 16/100, 17/100, 18/100, 19/100, 20/100, 21/100, 22/100, 23/100, 24/100, 25/100, 26/100, 27/100, 28/100, 29/100, 30/100, 31/100, 32/100, 33/100, 34/100, 35/100, 36/100, 37/100, 38/100, 39/100, 40/100, 41/100, 42/100, 43/100, 44/100, 45/100, 46/100, 47/100, 48/100, 49/100, 50/100, 51/100, 52/100, 53/100, 54/100, 55/100, 56/100, 57/100, 58/100, 59/100, 60/100, 61/100, 62/100, 63/100, 64/100, 65/100, 66/100, 67/100, 68/100, 69/100, 70/100, 71/100, 72/100, 73/100, 74/100, 75/100, 76/100, 77/100, 78/100, 79/100, 80/100, 81/100, 82/100, 83/100, 84/100, 85/100, 86/100, 87/100, 88/100, 89/100, 90/100, 91/100, 92/100, 93/100, 94/100, 95/100, 96/100, 97/100, 98/100, 99/100, 100/100]

/-! ## utils.increase_contrast (src/scripts/utils.py lines 93-104) -/

/-- Embedding of utils.increase_contrast over the flattened channel. -/
def increase_contrast (im_channel : List ℚ) : Except PyErr (List ℚ) := do
  let ch_min ← npMin im_channel
  let ch_max ← npMax im_channel
  if ch_max = ch_min then Except.error PyErr.valueError
  else pure (im_channel.map (fun x => (x - ch_min) / (ch_max - ch_min)))

/-! ## utils.threshold_between (src/scripts/utils.py lines 49-90)

Each of the six bound parameters defaults to None; the code tests each with
`if not bound:`, which in Python is also true for an explicit 0.0, in which
case the bound falls back to the corresponding channel statistic (min for a
low bound, max for a high bound).  The image is embedded as the flat list of
its (x, y, z) channel triples; each per-channel mask and the and/or
combination are pointwise over that list. -/

/-- Resolution of one bound parameter: `if not bound: bound = stat` — None
and an explicit 0.0 both fall back to the channel statistic. -/
def resolve_falsy (b : Option ℚ) (stat : Except PyErr ℚ) : Except PyErr ℚ :=
  match b with
  | none => stat
  | some v => if v = 0 then stat else Except.ok v

/-- Embedding of utils.threshold_between. -/
def threshold_between (image : List (ℚ × ℚ × ℚ))
    (x_low x_high y_low y_high z_low z_high : Option ℚ) (and_mask : Bool) :
    Except PyErr (List Bool) := do
  let xl ← resolve_falsy x_low (npMin (image.map (fun p => p.1)))
  let xh ← resolve_falsy x_high (npMax (image.map (fun p => p.1)))
  let yl ← resolve_falsy y_low (npMin (image.map (fun p => p.2.1)))
  let yh ← resolve_falsy y_high (npMax (image.map (fun p => p.2.1)))
  let zl ← resolve_falsy z_low (npMin (image.map (fun p => p.2.2)))
  let zh ← resolve_falsy z_high (npMax (image.map (fun p => p.2.2)))
  pure (image.map (fun p =>
    let xm := decide (xl ≤ p.1) && decide (p.1 ≤ xh)
    let ym := decide (yl ≤ p.2.1) && decide (p.2.1 ≤ yh)
    let zm := decide (zl ≤ p.2.2) && decide (p.2.2 ≤ zh)
    if and_mask then xm && ym && zm else xm || ym || zm))

/-- A two-pixel HSV image: hues 1/2 and 1/20, saturation and value 1/2. -/
def img10 : List (ℚ × ℚ × ℚ) := [(1/2, 1/2, 1/2), (1/20, 1/2, 1/2)]

/-! ## fluor_cropper.rough_crop (src/scripts/fluor_cropper.py lines 45-65) and
utils.crop_region (src/scripts/utils.py lines 12-33)

rough_crop slides the reference mask over every step-aligned anchor inside
the target, scores each anchor by `(crop == mask_a).sum()` and stores it in a
Python dict KEYED BY THE SCORE (`rough_overlap_dict[overlap] = (col, row)`),
so an anchor with a score seen before overwrites the previous anchor for that
score; it returns `d[max(d.keys())]`.  Masks are embedded as Boolean
functions of (row, column) with shapes passed separately; anchors are
(col, row) pairs as in the code. -/

/-- Python range(start, stop, step) for positive step. -/
def pyRange (start stop step : ℕ) : List ℕ :=
  List.range' start ((stop - start + step - 1) / step) step

/-- Embedding of utils.crop_region on a 2D array, as the index translation of
the numpy slice image[r - h/2 : r + h/2, c - w/2 : c + w/2] for an anchor
centre = (c, r) and shape = (h, w). -/
def crop_region {α : Type} (image : ℕ → ℕ → α) (centre : ℕ × ℕ)
    (shape : ℕ × ℕ) : ℕ → ℕ → α :=
  fun i j => image (centre.2 - shape.1 / 2 + i) (centre.1 - shape.2 / 2 + j)

/-- (crop == mask_a).sum(): the number of positions of an h × w window where
the two Boolean masks agree. -/
def mask_match_count (mask_a crop : ℕ → ℕ → Bool) (shape : ℕ × ℕ) : ℕ :=
  Finset.sum (Finset.range shape.1) (fun i =>
    Finset.sum (Finset.range shape.2) (fun j =>
      if crop i j = mask_a i j then 1 else 0))

/-- The overlap score of rough_crop at anchor cr = (col, row). -/
def overlap_at (mask_a mask_b : ℕ → ℕ → Bool) (shape_a : ℕ × ℕ)
    (cr : ℕ × ℕ) : ℕ :=
  mask_match_count mask_a (crop_region mask_b cr shape_a) shape_a

/-- Python dict assignment d[k] = v: replaces the value of an existing key in
place, else appends the new entry. -/
def pyDictInsert {α : Type} : List (ℕ × α) → ℕ → α → List (ℕ × α)
  | [], k, v => [(k, v)]
  | (a, b) :: rest, k, v =>
    if a = k then (k, v) :: rest else (a, b) :: pyDictInsert rest k v

/-- Python dict lookup d[k]: the value of the first entry with the key. -/
def pyLookup {α : Type} : List (ℕ × α) → ℕ → Option α
  | [], _ => none
  | (a, b) :: rest, k => if a = k then some b else pyLookup rest k

/-- The anchors visited by rough_crop, in iteration order: rows ascending,
then columns ascending, as (col, row) pairs. -/
def rough_anchors (shape_a shape_b : ℕ × ℕ) (step : ℕ) : List (ℕ × ℕ) :=
  (pyRange (shape_a.1 / 2) (shape_b.1 - shape_a.1 / 2 + 1) step).flatMap
    (fun row => (pyRange (shape_a.2 / 2) (shape_b.2 - shape_a.2 / 2 + 1) step).map
      (fun col => (col, row)))

/-- Embedding of fluor_cropper.rough_crop: builds the overlap dictionary keyed
by the overlap count, then returns the anchor stored under the maximum key;
none models the exception Python raises when max() gets an empty dict. -/
def rough_crop (mask_a mask_b : ℕ → ℕ → Bool) (shape_a shape_b : ℕ × ℕ)
    (step : ℕ) : Option (ℕ × ℕ) :=
  let anchors := rough_anchors shape_a shape_b step
  let d := anchors.foldl
    (fun d cr => pyDictInsert d (overlap_at mask_a mask_b shape_a cr) cr) []
  match (d.map Prod.fst).maximum with
  | none => none
  | some m => pyLookup d m

/-- Stated from the words of claim C4: the first anchor in raster-scan
iteration order attaining the maximum overlap. -/
def first_max_anchor (mask_a mask_b : ℕ → ℕ → Bool) (shape_a shape_b : ℕ × ℕ)
    (step : ℕ) : Option (ℕ × ℕ) :=
  let anchors := rough_anchors shape_a shape_b step
  match (anchors.map (overlap_at mask_a mask_b shape_a)).maximum with
  | none => none
  | some m =>
    anchors.find? (fun cr => decide (overlap_at mask_a mask_b shape_a cr = m))

/-- Stated for the amended claim C4: the last anchor in raster-scan iteration
order attaining the maximum overlap. -/
def last_max_anchor (mask_a mask_b : ℕ → ℕ → Bool) (shape_a shape_b : ℕ × ℕ)
    (step : ℕ) : Option (ℕ × ℕ) :=
  let anchors := rough_anchors shape_a shape_b step
  match (anchors.map (overlap_at mask_a mask_b shape_a)).maximum with
  | none => none
  | some m =>
    anchors.reverse.find?
      (fun cr => decide (overlap_at mask_a mask_b shape_a cr = m))

def A9 : ℕ → ℕ → Bool := fun _ _ => true

def B9 : ℕ → ℕ → Bool := fun x y =>
  decide (400 ≤ x ∧ x < 600) && decide (400 ≤ y ∧ y < 600)

def cnt200 (v : ℕ) : ℕ :=
  Finset.sum (Finset.range 200) (fun i =>
    if 400 ≤ v - 100 + i ∧ v - 100 + i < 600 then 1 else 0)

/-! ## fluor_cropper.worker (src/scripts/fluor_cropper.py lines 91-126)

The per-RGB loop of the worker wraps only the call to overlap_crop in
try/except; after printing the failure it falls through and crops at
`new_centre` anyway.  `new_centre` is the Python local still holding the
previous iteration's anchor (a stale value), or is unbound on a first-
iteration failure, in which case the NameError aborts the whole task.  The
loop is embedded over the per-RGB outcomes of overlap_crop (some anchor on
success, none when it raises); the boolean result records whether the task
aborted with NameError. -/

/-- Events the worker emits: the printed failure report for an RGB file, or a
saved fluorescence crop at the anchor the code used for that RGB file. -/
inductive WorkerEvent where
  | failureReport (idx : ℕ) : WorkerEvent
  | savedCrop (idx : ℕ) (centre : ℤ × ℤ) : WorkerEvent
deriving DecidableEq

/-- Embedding of the per-RGB loop of fluor_cropper.worker: outcomes of
overlap_crop per RGB file, current index, current value of the new_centre
local (none = unbound); returns the emitted events and whether the loop
crashed with NameError. -/
def worker_loop : List (Option (ℤ × ℤ)) → ℕ → Option (ℤ × ℤ) →
    List WorkerEvent × Bool
  | [], _, _ => ([], false)
  | some a :: rest, idx, _ =>
    let r := worker_loop rest (idx + 1) (some a)
    (WorkerEvent.savedCrop idx a :: r.1, r.2)
  | none :: rest, idx, some a =>
    let r := worker_loop rest (idx + 1) (some a)
    (WorkerEvent.failureReport idx :: WorkerEvent.savedCrop idx a :: r.1, r.2)
  | none :: _, idx, none => ([WorkerEvent.failureReport idx], true)

/-! # Theorems -/

/-- Claim C1: for every background mask B and phenotype mask P, the merged
ternary mask is 0 at every pixel where B is 0, regardless of P there. -/
theorem merge_masks_zero_on_background (B P : ℕ → ℕ → ℤ) (x y : ℕ)
    (h : B x y = 0) : merge_masks B P x y = 0 := by
  simp [merge_masks, h]

/-- Witness for merge_masks_zero_on_background at a concrete input: a
pixel where the background mask is 0 and the phenotype mask is 5. -/
theorem merge_masks_zero_on_background_wit :
    (fun (_ _ : ℕ) => (0 : ℤ)) 0 0 = 0 ∧
      merge_masks (fun _ _ => 0) (fun _ _ => 5) 0 0 = 0 :=
  ⟨rfl, merge_masks_zero_on_background (fun _ _ => 0) (fun _ _ => 5) 0 0 rfl⟩

/-- Claim C2 (evaluation at the failing input): on a pixel with bg = 1 and
pheno = 1 (sum 2) the code returns 1, and on a pixel with bg = 1 and
pheno = 0 (sum 1) it returns 2 — the opposite of the claimed (and
docstring) labels 2 and 1 respectively. -/
theorem merge_masks_swaps_labels :
    merge_masks (fun _ _ => 1) (fun _ _ => 1) 0 0 = 1 ∧
      merge_masks (fun _ _ => 1) (fun _ _ => 0) 0 0 = 2 := by
  constructor <;> rfl

/-- Claim C6: when the histogram has fewer than two local maxima, or no local
minimum above the first maximum, the threshold derivation of
shw_segmentation raises (IndexError) instead of returning thresholds, so no
mask from a silently substituted default can be produced. -/
theorem shw_thresholds_error_on_degenerate (max_bins min_bins : List ℚ)
    (bg_mod fg_mod : ℚ)
    (h : max_bins.length < 2 ∨
      ∀ m0, pyIdx max_bins 0 = Except.ok m0 →
        min_bins.filter (fun x => m0 < x) = []) :
    (shw_thresholds max_bins min_bins bg_mod fg_mod).isOk = false := by
  match max_bins with
  | [] => rfl
  | [a] =>
    simp only [shw_thresholds, pyIdx, Bind.bind, Except.bind]
    cases hf : (min_bins.filter (fun x => a < x)) with
    | nil => simp [hf, Except.isOk, Except.toBool]
    | cons b t => simp [hf, Except.isOk, Except.toBool]
  | a :: b :: t =>
    rcases h with h | h
    · simp only [List.length_cons] at h; omega
    · have hf := h a (by rfl)
      simp only [shw_thresholds, pyIdx, Bind.bind, Except.bind]
      simp [hf, Except.isOk, Except.toBool]

/-- Witness for shw_thresholds_error_on_degenerate: a histogram with a single
maximum (and no minima at all) makes the derivation fail. -/
theorem shw_thresholds_error_on_degenerate_wit :
    ([(2 : ℚ)/5].length < 2 ∨
      ∀ m0, pyIdx [(2 : ℚ)/5] 0 = Except.ok m0 →
        List.filter (fun x => decide (m0 < x)) [] = []) ∧
      (shw_thresholds [(2 : ℚ)/5] [] (3/20) (1/5)).isOk = false :=
  ⟨Or.inl (by decide),
    shw_thresholds_error_on_degenerate [(2 : ℚ)/5] [] (3/20) (1/5)
      (Or.inl (by decide))⟩

/-- Claim C8: on a channel whose minimum m and maximum M differ,
increase_contrast maps every pixel holding m to exactly 0 and every pixel
holding M to exactly 1; on a channel with m = M it raises instead. -/
theorem increase_contrast_spec (l : List ℚ) (m M : ℚ)
    (hm : npMin l = Except.ok m) (hM : npMax l = Except.ok M) :
    (m = M → increase_contrast l = Except.error PyErr.valueError) ∧
    (m ≠ M → ∃ out, increase_contrast l = Except.ok out ∧
      ∀ i : ℕ, (l[i]? = some m → out[i]? = some 0) ∧
               (l[i]? = some M → out[i]? = some 1)) := by
  constructor
  · intro hEq
    subst hEq
    simp only [increase_contrast, hm, hM, Bind.bind, Except.bind, if_pos rfl,
      if_true]
  · intro hNe
    have hMm : M - m ≠ 0 := sub_ne_zero.mpr (Ne.symm hNe)
    refine ⟨l.map (fun x => (x - m) / (M - m)), ?_, ?_⟩
    · simp only [increase_contrast, hm, hM, Bind.bind, Except.bind,
        if_neg (Ne.symm hNe), pure, Except.pure]
    · intro i
      constructor
      · intro hi
        rw [List.getElem?_map, hi]
        simp
      · intro hi
        rw [List.getElem?_map, hi]
        simp [div_self hMm]

/-- Claim C5 (evaluation at the failing input): in a task whose first RGB
registers at anchor (3, 4) and whose second raises in overlap_crop, the
worker prints the failure but then still saves a crop for the second RGB at
the stale anchor (3, 4); and in a task whose FIRST RGB raises, the loop
aborts with NameError (new_centre unbound) before reaching the second RGB. -/
theorem worker_stale_anchor_and_crash :
    worker_loop [some (3, 4), none] 0 none =
      ([WorkerEvent.savedCrop 0 (3, 4), WorkerEvent.failureReport 1,
        WorkerEvent.savedCrop 1 (3, 4)], false) ∧
    worker_loop [none, some (3, 4)] 0 none =
      ([WorkerEvent.failureReport 0], true) := by
  constructor <;> rfl

/-- The last element of a filtered list is the element at the last index
satisfying the predicate. -/
theorem filter_getLast_of_lastIdx {α : Type} (l : List α) (p : α → Bool)
    (j : ℕ) (v : α) (hj : l.get? j = some v) (hpv : p v = true)
    (hlast : ∀ k, j < k → ∀ w, l.get? k = some w → p w = false) :
    (l.filter p).getLast? = some v := by
  induction l generalizing j with
  | nil => simp at hj
  | cons a t ih =>
    cases j with
    | zero =>
      simp only [List.get?] at hj
      injection hj with hj
      subst hj
      have ht : t.filter p = [] := by
        apply List.filter_eq_nil_iff.mpr
        intro x hx
        rcases List.get?_of_mem hx with ⟨n, hn⟩
        have hp := hlast (n + 1) (by omega) x (by simpa using hn)
        simp [hp]
      simp [List.filter_cons, hpv, ht]
    | succ k =>
      have hj2 : t.get? k = some v := by simpa using hj
      have hlast2 : ∀ m, k < m → ∀ w, t.get? m = some w → p w = false := by
        intro m hm w hw
        exact hlast (m + 1) (by omega) w (by simpa using hw)
      have ih2 := ih k hj2 hlast2
      by_cases hpa : p a
      · rw [List.filter_cons_of_pos hpa]
        cases hft : t.filter p with
        | nil => rw [hft] at ih2; simp at ih2
        | cons b u =>
          rw [hft] at ih2
          rw [List.getLast?_cons_cons]
          exact ih2
      · rw [List.filter_cons_of_neg hpa]
        exact ih2

/-- findIdx? (with start offset s) finds the first index satisfying the
predicate. -/
theorem findIdx?_shift {α : Type} (l : List α) (p : α → Bool) (j s : ℕ)
    (v : α) (hj : l.get? j = some v) (hpv : p v = true)
    (hfirst : ∀ i, i < j → ∀ w, l.get? i = some w → p w = false) :
    l.findIdx? p s = some (s + j) := by
  induction l generalizing j s with
  | nil => simp at hj
  | cons a t ih =>
    cases j with
    | zero =>
      simp only [List.get?] at hj
      injection hj with hj
      subst hj
      rw [List.findIdx?_cons, if_pos hpv]
      simp
    | succ k =>
      have hpa : p a = false := hfirst 0 (by omega) a rfl
      have hj2 : t.get? k = some v := by simpa using hj
      have hfirst2 : ∀ i, i < k → ∀ w, t.get? i = some w → p w = false := by
        intro i hi w hw
        exact hfirst (i + 1) (by omega) w (by simpa using hw)
      rw [List.findIdx?_cons, if_neg (by simp [hpa])]
      rw [ih k (s + 1) hj2 hfirst2]
      congr 1
      omega

/-- Evaluation of barb_thresh: when the last bin whose count exceeds the
bound is bin j holding count vj, and the first bin holding count vj is bin
i0, the code returns 2 * bins[i0] / div. -/
theorem barb_thresh_eval (values : List ℕ) (bins : List ℚ) (div : ℚ)
    (peak_i val_max : ℕ) (bin_max rb : ℚ) (vj j i0 : ℕ)
    (hpeak : npArgmax values = Except.ok peak_i)
    (hval : values.get? peak_i = some val_max)
    (hbin : bins.get? peak_i = some bin_max)
    (hj : values.get? j = some vj)
    (hjex : (if bin_max ≤ 2/5 then (1/5) * (val_max : ℚ)
      else (1/2) * (val_max : ℚ)) < (vj : ℚ))
    (hjlast : ∀ k, j < k → ∀ w, values.get? k = some w →
      ¬ (if bin_max ≤ 2/5 then (1/5) * (val_max : ℚ)
        else (1/2) * (val_max : ℚ)) < (w : ℚ))
    (hi0 : values.get? i0 = some vj)
    (hfirst : ∀ i, i < i0 → values.get? i ≠ some vj)
    (hrb : bins.get? i0 = some rb) :
    barb_thresh values bins div = Except.ok (2 * rb / div) := by
  have hfilter := filter_getLast_of_lastIdx values
    (fun v : ℕ => decide ((if bin_max ≤ 2/5 then (1/5) * (val_max : ℚ)
      else (1/2) * (val_max : ℚ)) < (v : ℚ))) j vj hj
    (by simpa using hjex)
    (by
      intro k hk w hw
      simp only [decide_eq_false_iff_not]
      exact hjlast k hk w hw)
  have hfind := findIdx?_shift values (fun u => decide (u = vj)) i0 0 vj hi0
    (by simp)
    (by
      intro i hi w hw
      simp only [decide_eq_false_iff_not]
      intro heq
      exact hfirst i hi (heq ▸ hw))
  simp only [barb_thresh, Bind.bind, Except.bind, pyIdx, pyLast, pyWhereFirst,
    hpeak, hval, hbin, hfilter, hfind, hrb, Nat.zero_add, pure, Except.pure]

/-- Evaluation of the claim-side threshold: it uses the bin value of the last
exceeding bin j itself. -/
theorem claim_barb_thresh_eval (values : List ℕ) (bins : List ℚ) (div : ℚ)
    (peak_i val_max : ℕ) (bin_max bj : ℚ) (vj j : ℕ)
    (hpeak : npArgmax values = Except.ok peak_i)
    (hval : values.get? peak_i = some val_max)
    (hbin : bins.get? peak_i = some bin_max)
    (hj : values.get? j = some vj)
    (hjex : (if bin_max ≤ 2/5 then (1/5) * (val_max : ℚ)
      else (1/2) * (val_max : ℚ)) < (vj : ℚ))
    (hjlast : ∀ k, j < k → ∀ w, values.get? k = some w →
      ¬ (if bin_max ≤ 2/5 then (1/5) * (val_max : ℚ)
        else (1/2) * (val_max : ℚ)) < (w : ℚ))
    (hbj : bins.get? j = some bj) :
    claim_barb_thresh values bins div = Except.ok (2 * bj / div) := by
  have hjlen : j < values.length := by
    by_contra hge
    rw [List.get?_eq_none.mpr (by omega)] at hj
    exact Option.noConfusion hj
  have hrange_j : (List.range values.length).get? j = some j := by
    rw [List.get?_eq_getElem?]
    exact List.getElem?_range hjlen
  have hlast := filter_getLast_of_lastIdx (List.range values.length)
    (fun i => match values.get? i with
      | some v => decide ((if bin_max ≤ 2/5 then (1/5) * (val_max : ℚ)
          else (1/2) * (val_max : ℚ)) < (v : ℚ))
      | none => false) j j hrange_j
    (by
      simp only [hj]
      simpa using hjex)
    (by
      intro k hk w hw
      have hkn : k < values.length := by
        by_contra hge
        rw [List.get?_eq_none.mpr ?_] at hw
        · exact Option.noConfusion hw
        · simpa using by omega
      have hwk : w = k := by
        rw [List.get?_range hkn] at hw
        exact (Option.some.injEq _ _ ▸ hw.symm : _)
      subst hwk
      cases hv : values.get? w with
      | none =>
        rw [List.get?_eq_getElem?] at hv
        simp [hv]
      | some u =>
        have hv2 := hv
        rw [List.get?_eq_getElem?] at hv2
        simp only [hv, hv2, decide_eq_false_iff_not]
        exact hjlast w hk u hv)
  have hlw : lastIdxWhere values
      (fun v => decide ((if bin_max ≤ 2/5 then (1/5) * (val_max : ℚ)
        else (1/2) * (val_max : ℚ)) < (v : ℚ))) = some j := by
    unfold lastIdxWhere
    exact hlast
  simp only [claim_barb_thresh, Bind.bind, Except.bind, pyIdx, hpeak, hval,
    hbin, hlw, hbj, pure, Except.pure]

set_option maxRecDepth 4000

/-- Claim C7 (counterexample): on the 100-bin histogram with counts
[10, 3, 3, ..., 3] and uniform bin edges over [0, 1] with divisor 3, the
bound is 2 and the last bin whose count exceeds it is bin 99, so the claimed
threshold is 2 * (99/100) / 3 = 33/50 — but barb_thresh looks up the FIRST
bin holding count 3 (bin 1) and returns 2 * (1/100) / 3 = 1/150. -/
theorem barb_thresh_counterexample :
    barb_thresh cex_values cex_bins 3 = Except.ok (1/150) ∧
    claim_barb_thresh cex_values cex_bins 3 = Except.ok (33/50) ∧
    (1/150 : ℚ) ≠ 33/50 := by
  have hlast : ∀ k, 99 < k → ∀ w, cex_values.get? k = some w →
      ¬ (if (0 : ℚ) ≤ 2/5 then (1/5) * ((10 : ℕ) : ℚ)
        else (1/2) * ((10 : ℕ) : ℚ)) < (w : ℚ) := by
    intro k hk w hw
    have hlen : cex_values.length ≤ k := by
      rw [show cex_values.length = 100 from rfl]
      omega
    rw [List.get?_eq_none.mpr hlen] at hw
    exact Option.noConfusion hw
  refine ⟨?_, ?_, by norm_num⟩
  · have h := barb_thresh_eval cex_values cex_bins 3 0 10 0 (1/100) 3 99 1
      rfl rfl rfl rfl (by norm_num) hlast rfl (by decide) rfl
    rw [h]
    simp only [Except.ok.injEq]
    norm_num
  · have h := claim_barb_thresh_eval cex_values cex_bins 3 0 10 0 (99/100) 3 99
      rfl rfl rfl rfl (by norm_num) hlast rfl
    rw [h]
    simp only [Except.ok.injEq]
    norm_num

/-- Claim C7 as amended: the threshold equals 2 times the bin value of the
last histogram bin whose count exceeds the bound, divided by div, PROVIDED no
earlier bin has the same count as that bin (the code looks the count up with
np.where and takes the first index holding it). -/
theorem barb_thresh_amended (values : List ℕ) (bins : List ℚ) (div : ℚ)
    (peak_i val_max : ℕ) (bin_max bj : ℚ) (vj j : ℕ)
    (hpeak : npArgmax values = Except.ok peak_i)
    (hval : values.get? peak_i = some val_max)
    (hbin : bins.get? peak_i = some bin_max)
    (hj : values.get? j = some vj)
    (hjex : (if bin_max ≤ 2/5 then (1/5) * (val_max : ℚ)
      else (1/2) * (val_max : ℚ)) < (vj : ℚ))
    (hjlast : ∀ k, j < k → ∀ w, values.get? k = some w →
      ¬ (if bin_max ≤ 2/5 then (1/5) * (val_max : ℚ)
        else (1/2) * (val_max : ℚ)) < (w : ℚ))
    (huniq : ∀ i, i < j → values.get? i ≠ some vj)
    (hbj : bins.get? j = some bj) :
    barb_thresh values bins div = Except.ok (2 * bj / div) :=
  barb_thresh_eval values bins div peak_i val_max bin_max bj vj j j
    hpeak hval hbin hj hjex hjlast hj huniq hbj

/-- Witness for barb_thresh_amended: histogram counts [10, 3, 7], bins
[0, 1/10, 2/10, 3/10]; count 7 of the last exceeding bin (index 2) occurs
nowhere earlier, so the code returns the claimed value 2 * (2/10) / 3. -/
theorem barb_thresh_amended_wit :
    npArgmax [10, 3, 7] = Except.ok 0 ∧
    barb_thresh [10, 3, 7] [0, 1/10, 2/10, 3/10] 3 =
      Except.ok (2 * (2/10) / 3) :=
  ⟨rfl,
    barb_thresh_amended [10, 3, 7] [0, 1/10, 2/10, 3/10] 3 0 10 0 (2/10) 7 2
      rfl rfl rfl rfl
      (by norm_num)
      (by
        intro k hk w hw
        have hlen : ([10, 3, 7] : List ℕ).length ≤ k := by
          simp only [List.length_cons, List.length_nil]
          omega
        rw [List.get?_eq_none.mpr hlen] at hw
        exact Option.noConfusion hw)
      (by decide) rfl⟩

/-- Witness for increase_contrast_spec on the channel [0, 1, 1/2]:
minimum 0 maps to 0 and maximum 1 maps to 1. -/
theorem increase_contrast_spec_wit :
    ((0 : ℚ) ≠ 1 ∧ npMin [(0 : ℚ), 1, 1/2] = Except.ok 0 ∧
      npMax [(0 : ℚ), 1, 1/2] = Except.ok 1) ∧
    ∃ out, increase_contrast [(0 : ℚ), 1, 1/2] = Except.ok out ∧
      ∀ i : ℕ, ([(0 : ℚ), 1, 1/2][i]? = some 0 → out[i]? = some 0) ∧
               ([(0 : ℚ), 1, 1/2][i]? = some 1 → out[i]? = some 1) :=
  ⟨⟨by norm_num, by norm_num [npMin, qmin], by norm_num [npMax, qmax]⟩,
    (increase_contrast_spec [(0 : ℚ), 1, 1/2] 0 1 (by norm_num [npMin, qmin])
      (by norm_num [npMax, qmax])).2 (by norm_num)⟩

theorem qmin_le_left (a b : ℚ) : qmin a b ≤ a := by
  unfold qmin
  by_cases h : a ≤ b
  · rw [if_pos h]
  · rw [if_neg h]
    exact le_of_not_le h

theorem qmin_le_right (a b : ℚ) : qmin a b ≤ b := by
  unfold qmin
  by_cases h : a ≤ b
  · rw [if_pos h]; exact h
  · rw [if_neg h]

theorem le_qmax_left (a b : ℚ) : a ≤ qmax a b := by
  unfold qmax
  by_cases h : a ≤ b
  · rw [if_pos h]; exact h
  · rw [if_neg h]

theorem le_qmax_right (a b : ℚ) : b ≤ qmax a b := by
  unfold qmax
  by_cases h : a ≤ b
  · rw [if_pos h]
  · rw [if_neg h]
    exact le_of_not_le h

theorem foldl_qmin_le_init (xs : List ℚ) (a : ℚ) : xs.foldl qmin a ≤ a := by
  induction xs generalizing a with
  | nil => exact le_refl a
  | cons x t ih =>
    calc t.foldl qmin (qmin a x) ≤ qmin a x := ih (qmin a x)
    _ ≤ a := qmin_le_left a x

theorem foldl_qmin_le_mem (xs : List ℚ) (a x : ℚ) (hx : x ∈ xs) :
    xs.foldl qmin a ≤ x := by
  induction xs generalizing a with
  | nil => simp at hx
  | cons y t ih =>
    rcases List.mem_cons.mp hx with h | h
    · subst h
      calc t.foldl qmin (qmin a x) ≤ qmin a x := foldl_qmin_le_init t _
      _ ≤ x := qmin_le_right a x
    · exact ih (qmin a y) h

theorem le_foldl_qmax_init (xs : List ℚ) (a : ℚ) : a ≤ xs.foldl qmax a := by
  induction xs generalizing a with
  | nil => exact le_refl a
  | cons x t ih =>
    calc a ≤ qmax a x := le_qmax_left a x
    _ ≤ t.foldl qmax (qmax a x) := ih (qmax a x)

theorem le_foldl_qmax_mem (xs : List ℚ) (a x : ℚ) (hx : x ∈ xs) :
    x ≤ xs.foldl qmax a := by
  induction xs generalizing a with
  | nil => simp at hx
  | cons y t ih =>
    rcases List.mem_cons.mp hx with h | h
    · subst h
      calc x ≤ qmax a x := le_qmax_right a x
      _ ≤ t.foldl qmax (qmax a x) := le_foldl_qmax_init t _
    · exact ih (qmax a y) h

theorem npMin_le (l : List ℚ) (m x : ℚ) (hm : npMin l = Except.ok m)
    (hx : x ∈ l) : m ≤ x := by
  cases l with
  | nil => simp at hx
  | cons a t =>
    simp only [npMin] at hm
    injection hm with hm
    subst hm
    rcases List.mem_cons.mp hx with h | h
    · subst h; exact foldl_qmin_le_init t x
    · exact foldl_qmin_le_mem t a x h

theorem le_npMax (l : List ℚ) (M x : ℚ) (hM : npMax l = Except.ok M)
    (hx : x ∈ l) : x ≤ M := by
  cases l with
  | nil => simp at hx
  | cons a t =>
    simp only [npMax] at hM
    injection hM with hM
    subst hM
    rcases List.mem_cons.mp hx with h | h
    · subst h; exact le_foldl_qmax_init t x
    · exact le_foldl_qmax_mem t a x h

/-- Claim C10 (counterexample): with h_main = 1/20 (which is ≤ 0.1), the hue
window [h_main - 1/10, h_main + 1/10] does NOT widen to the full channel
range: the pixel with hue 1/2 is excluded by the upper bound, and the lower
bound resolves to -1/20 (negative values are truthy in Python), not to the
channel minimum 1/20. -/
theorem threshold_between_counterexample :
    ((1/20 : ℚ) ≤ 1/10) ∧
    threshold_between img10 (some ((1/20 : ℚ) - 1/10)) (some ((1/20 : ℚ) + 1/10))
      none none none none true = Except.ok [false, true] ∧
    resolve_falsy (some ((1/20 : ℚ) - 1/10)) (npMin (img10.map (fun p => p.1)))
      = Except.ok (-(1/20)) ∧
    npMin (img10.map (fun p => p.1)) = Except.ok (1/20) := by
  refine ⟨by norm_num, ?_, ?_, ?_⟩
  · norm_num [threshold_between, img10, resolve_falsy, npMin, npMax, qmin, qmax,
      Bind.bind, Except.bind, pure, Except.pure]
  · norm_num [img10, resolve_falsy, npMin, qmin]
  · norm_num [img10, npMin, qmin]

/-- An explicit 0.0 bound resolves like an omitted bound. -/
theorem resolve_falsy_zero (s : Except PyErr ℚ) :
    resolve_falsy (some 0) s = s := by
  simp [resolve_falsy]

/-- An omitted bound resolves to the channel statistic. -/
theorem resolve_falsy_none (s : Except PyErr ℚ) :
    resolve_falsy none s = s := rfl

/-- Claim C10 as amended: a bound argument equal to 0.0 behaves exactly as if
omitted (all six slots), and an explicit lower x-bound of 0.0 never excludes
any pixel; but in the hue window of canny_central_ob the lower bound
h_main - 1/10 falls back only when it equals 0 exactly (h_main = 1/10), and
the upper bound h_main + 1/10 always keeps excluding pixels above it, so the
window never silently widens to the full channel range. -/
theorem threshold_between_falsy_spec :
    (∀ (image : List (ℚ × ℚ × ℚ)) b2 b3 b4 b5 b6 am,
      threshold_between image (some 0) b2 b3 b4 b5 b6 am =
        threshold_between image none b2 b3 b4 b5 b6 am) ∧
    (∀ image b1 b3 b4 b5 b6 am,
      threshold_between image b1 (some 0) b3 b4 b5 b6 am =
        threshold_between image b1 none b3 b4 b5 b6 am) ∧
    (∀ image b1 b2 b4 b5 b6 am,
      threshold_between image b1 b2 (some 0) b4 b5 b6 am =
        threshold_between image b1 b2 none b4 b5 b6 am) ∧
    (∀ image b1 b2 b3 b5 b6 am,
      threshold_between image b1 b2 b3 (some 0) b5 b6 am =
        threshold_between image b1 b2 b3 none b5 b6 am) ∧
    (∀ image b1 b2 b3 b4 b6 am,
      threshold_between image b1 b2 b3 b4 (some 0) b6 am =
        threshold_between image b1 b2 b3 b4 none b6 am) ∧
    (∀ image b1 b2 b3 b4 b5 am,
      threshold_between image b1 b2 b3 b4 b5 (some 0) am =
        threshold_between image b1 b2 b3 b4 b5 none am) ∧
    (∀ (image : List (ℚ × ℚ × ℚ)) out,
      threshold_between image (some 0) none none none none none true =
        Except.ok out → ∀ b ∈ out, b = true) ∧
    (∀ (hm : ℚ) (s : Except PyErr ℚ), hm ≠ 1/10 →
      resolve_falsy (some (hm - 1/10)) s = Except.ok (hm - 1/10)) ∧
    (∀ (hm : ℚ) (s : Except PyErr ℚ), hm = 1/10 →
      resolve_falsy (some (hm - 1/10)) s = s) ∧
    (∀ (image : List (ℚ × ℚ × ℚ)) (hm : ℚ) out i p, hm + 1/10 ≠ 0 →
      threshold_between image (some (hm - 1/10)) (some (hm + 1/10))
        none none none none true = Except.ok out →
      image.get? i = some p → hm + 1/10 < p.1 → out.get? i = some false) := by
  refine ⟨?_, ?_, ?_, ?_, ?_, ?_, ?_, ?_, ?_, ?_⟩
  · intro image b2 b3 b4 b5 b6 am
    simp only [threshold_between, resolve_falsy_zero, resolve_falsy_none]
  · intro image b1 b3 b4 b5 b6 am
    simp only [threshold_between, resolve_falsy_zero, resolve_falsy_none]
  · intro image b1 b2 b4 b5 b6 am
    simp only [threshold_between, resolve_falsy_zero, resolve_falsy_none]
  · intro image b1 b2 b3 b5 b6 am
    simp only [threshold_between, resolve_falsy_zero, resolve_falsy_none]
  · intro image b1 b2 b3 b4 b6 am
    simp only [threshold_between, resolve_falsy_zero, resolve_falsy_none]
  · intro image b1 b2 b3 b4 b5 am
    simp only [threshold_between, resolve_falsy_zero, resolve_falsy_none]
  · intro image out h b hb
    cases image with
    | nil =>
      simp [threshold_between, resolve_falsy_zero, resolve_falsy_none, npMin,
        Bind.bind, Except.bind] at h
    | cons q t =>
      have e1 : npMin (List.map (fun p => p.1) (q :: t)) =
          Except.ok ((List.map (fun p => p.1) t).foldl qmin q.1) := by
        simp [npMin]
      have e2 : npMax (List.map (fun p => p.1) (q :: t)) =
          Except.ok ((List.map (fun p => p.1) t).foldl qmax q.1) := by
        simp [npMax]
      have e3 : npMin (List.map (fun p => p.2.1) (q :: t)) =
          Except.ok ((List.map (fun p => p.2.1) t).foldl qmin q.2.1) := by
        simp [npMin]
      have e4 : npMax (List.map (fun p => p.2.1) (q :: t)) =
          Except.ok ((List.map (fun p => p.2.1) t).foldl qmax q.2.1) := by
        simp [npMax]
      have e5 : npMin (List.map (fun p => p.2.2) (q :: t)) =
          Except.ok ((List.map (fun p => p.2.2) t).foldl qmin q.2.2) := by
        simp [npMin]
      have e6 : npMax (List.map (fun p => p.2.2) (q :: t)) =
          Except.ok ((List.map (fun p => p.2.2) t).foldl qmax q.2.2) := by
        simp [npMax]
      simp only [threshold_between, resolve_falsy_zero, resolve_falsy_none,
        e1, e2, e3, e4, e5, e6, Bind.bind, Except.bind, pure, Except.pure] at h
      injection h with h
      subst h
      rcases List.mem_map.mp hb with ⟨p, hp, hfp⟩
      subst hfp
      have hx1 := npMin_le _ _ p.1 e1 (List.mem_map_of_mem _ hp)
      have hx2 := le_npMax _ _ p.1 e2 (List.mem_map_of_mem _ hp)
      have hy1 := npMin_le _ _ p.2.1 e3 (List.mem_map_of_mem _ hp)
      have hy2 := le_npMax _ _ p.2.1 e4 (List.mem_map_of_mem _ hp)
      have hz1 := npMin_le _ _ p.2.2 e5 (List.mem_map_of_mem _ hp)
      have hz2 := le_npMax _ _ p.2.2 e6 (List.mem_map_of_mem _ hp)
      simp [hx1, hx2, hy1, hy2, hz1, hz2]
  · intro hm s hne
    have hsub : hm - 1/10 ≠ 0 := sub_ne_zero.mpr hne
    simp only [resolve_falsy]
    rw [if_neg hsub]
  · intro hm s he
    subst he
    simp [resolve_falsy]
  · intro image hm out i p hne h hget hlt
    cases image with
    | nil => simp at hget
    | cons q t =>
      have e1 : npMin (List.map (fun p => p.1) (q :: t)) =
          Except.ok ((List.map (fun p => p.1) t).foldl qmin q.1) := by
        simp [npMin]
      have e3 : npMin (List.map (fun p => p.2.1) (q :: t)) =
          Except.ok ((List.map (fun p => p.2.1) t).foldl qmin q.2.1) := by
        simp [npMin]
      have e4 : npMax (List.map (fun p => p.2.1) (q :: t)) =
          Except.ok ((List.map (fun p => p.2.1) t).foldl qmax q.2.1) := by
        simp [npMax]
      have e5 : npMin (List.map (fun p => p.2.2) (q :: t)) =
          Except.ok ((List.map (fun p => p.2.2) t).foldl qmin q.2.2) := by
        simp [npMin]
      have e6 : npMax (List.map (fun p => p.2.2) (q :: t)) =
          Except.ok ((List.map (fun p => p.2.2) t).foldl qmax q.2.2) := by
        simp [npMax]
      have hhigh : resolve_falsy (some (hm + 1/10))
          (npMax (List.map (fun p => p.1) (q :: t))) =
          Except.ok (hm + 1/10) := by
        simp only [resolve_falsy]
        rw [if_neg hne]
      rcases hxl : resolve_falsy (some (hm - 1/10))
          (npMin (List.map (fun p => p.1) (q :: t))) with e | xl
      · simp only [threshold_between, hxl, Bind.bind, Except.bind] at h
        exact Except.noConfusion h
      · simp only [threshold_between, hxl, hhigh, resolve_falsy_none,
          e3, e4, e5, e6, Bind.bind, Except.bind, pure, Except.pure] at h
        injection h with h
        subst h
        rw [List.get?_map, hget]
        simp
        intros
        linarith

/-- Witness for threshold_between_falsy_spec: instantiations of its three
conditional parts at concrete inputs. -/
theorem threshold_between_falsy_spec_wit :
    (∀ b ∈ [true], b = true) ∧
    resolve_falsy (some ((1/20 : ℚ) - 1/10)) (Except.ok 0) =
      Except.ok ((1/20 : ℚ) - 1/10) ∧
    ([false, true].get? 0 = some false) :=
  ⟨threshold_between_falsy_spec.2.2.2.2.2.2.1 [(1/2, 1/2, 1/2)] [true]
      (by norm_num [threshold_between, resolve_falsy, npMin, npMax, qmin, qmax,
        Bind.bind, Except.bind, pure, Except.pure]),
    threshold_between_falsy_spec.2.2.2.2.2.2.2.1 (1/20) (Except.ok 0)
      (by norm_num),
    threshold_between_falsy_spec.2.2.2.2.2.2.2.2.2 img10 (1/20) [false, true]
      0 (1/2, 1/2, 1/2) (by norm_num)
      (by norm_num [threshold_between, img10, resolve_falsy, npMin, npMax,
        qmin, qmax, Bind.bind, Except.bind, pure, Except.pure])
      rfl (by norm_num)⟩

/-- Dict lookup after insertion. -/
theorem pyLookup_pyDictInsert {α : Type} (d : List (ℕ × α)) (k1 : ℕ) (v : α)
    (k : ℕ) : pyLookup (pyDictInsert d k1 v) k =
      if k1 = k then some v else pyLookup d k := by
  induction d with
  | nil => simp only [pyDictInsert, pyLookup]
  | cons e rest ih =>
    rcases e with ⟨a, b⟩
    simp only [pyDictInsert]
    by_cases ha : a = k1
    · subst ha
      rw [if_pos rfl]
      by_cases hk : a = k <;> simp [pyLookup, hk]
    · rw [if_neg ha]
      by_cases hk : k1 = k <;> by_cases hak : a = k <;>
        simp_all [pyLookup]

/-- Looking up a key in the dict built by a fold of insertions returns the
value of the LAST inserted pair with that key. -/
theorem pyLookup_foldl {α : Type} (ps : List (ℕ × α)) (d : List (ℕ × α))
    (k : ℕ) :
    pyLookup (ps.foldl (fun acc p => pyDictInsert acc p.1 p.2) d) k =
      match ps.reverse.find? (fun p => decide (p.1 = k)) with
      | some p => some p.2
      | none => pyLookup d k := by
  induction ps generalizing d with
  | nil => simp
  | cons p rest ih =>
    rcases p with ⟨kp, vp⟩
    simp only [List.foldl_cons, List.reverse_cons]
    rw [ih]
    rw [List.find?_append]
    cases hf : rest.reverse.find? (fun p => decide (p.1 = k)) with
    | some q => simp [Option.or]
    | none =>
      simp only [Option.or, List.find?]
      by_cases hk : kp = k
      · simp [hk, pyLookup_pyDictInsert]
      · simp [hk, pyLookup_pyDictInsert]

/-- Keys after an insertion. -/
theorem mem_keys_pyDictInsert {α : Type} (d : List (ℕ × α)) (k1 : ℕ) (v : α)
    (k : ℕ) : k ∈ (pyDictInsert d k1 v).map Prod.fst ↔
      k = k1 ∨ k ∈ d.map Prod.fst := by
  induction d with
  | nil => simp [pyDictInsert]
  | cons e rest ih =>
    rcases e with ⟨a, b⟩
    simp only [pyDictInsert]
    by_cases ha : a = k1
    · subst ha
      rw [if_pos rfl]
      simp only [List.map_cons, List.mem_cons]
      constructor
      · rintro (h | h)
        · exact Or.inl h
        · exact Or.inr (Or.inr h)
      · rintro (h | h | h)
        · exact Or.inl h
        · exact Or.inl (h ▸ rfl)
        · exact Or.inr h
    · rw [if_neg ha]
      simp only [List.map_cons, List.mem_cons, ih]
      tauto

/-- Keys of the dict built by a fold of insertions. -/
theorem mem_keys_foldl {α : Type} (ps : List (ℕ × α)) (d : List (ℕ × α))
    (k : ℕ) :
    k ∈ ((ps.foldl (fun acc p => pyDictInsert acc p.1 p.2) d).map Prod.fst) ↔
      k ∈ ps.map Prod.fst ∨ k ∈ d.map Prod.fst := by
  induction ps generalizing d with
  | nil => simp
  | cons p rest ih =>
    rcases p with ⟨kp, vp⟩
    simp only [List.foldl_cons, ih, mem_keys_pyDictInsert, List.map_cons,
      List.mem_cons]
    tauto

/-- Lists with the same members have the same maximum. -/
theorem maximum_eq_of_mem_iff (l1 l2 : List ℕ)
    (h : ∀ a, a ∈ l1 ↔ a ∈ l2) : l1.maximum = l2.maximum := by
  cases hm : l1.maximum with
  | bot =>
    have h1 : l1 = [] := List.maximum_eq_none.mp hm
    subst h1
    have h2 : l2 = [] := by
      cases l2 with
      | nil => rfl
      | cons x t => exact absurd ((h x).mpr (by simp)) (by simp)
    subst h2
    rfl
  | coe m =>
    rw [List.maximum_eq_coe_iff] at hm
    symm
    rw [List.maximum_eq_coe_iff]
    exact ⟨(h m).mp hm.1, fun a ha => hm.2 a ((h a).mpr ha)⟩

/-- find? returns the unique element satisfying the predicate. -/
theorem find?_eq_some_of_unique {α : Type} (l : List α) (p : α → Bool) (x : α)
    (hx : x ∈ l) (hpx : p x = true) (huniq : ∀ y ∈ l, p y = true → y = x) :
    l.find? p = some x := by
  induction l with
  | nil => simp at hx
  | cons a t ih =>
    by_cases hpa : p a = true
    · have : a = x := huniq a (by simp) hpa
      subst this
      simp [List.find?, hpa]
    · have hax : a ≠ x := fun he => hpa (he ▸ hpx)
      have hxt : x ∈ t := by
        rcases List.mem_cons.mp hx with h | h
        · exact absurd h.symm hax
        · exact h
      simp only [List.find?]
      rw [Bool.of_not_eq_true hpa]
      exact ih hxt (fun y hy hpy => huniq y (List.mem_cons_of_mem a hy) hpy)

/-- rough_crop equals the last anchor in iteration order attaining the
maximum overlap: the dict is keyed by overlap count, an insertion for an
existing count overwrites the stored anchor, and the final lookup takes the
maximum count. -/
theorem rough_crop_eq_last_max_aux (mask_a mask_b : ℕ → ℕ → Bool)
    (shape_a shape_b : ℕ × ℕ) (step : ℕ) :
    rough_crop mask_a mask_b shape_a shape_b step =
      last_max_anchor mask_a mask_b shape_a shape_b step := by
  unfold rough_crop last_max_anchor
  dsimp only
  have hfold :
      (rough_anchors shape_a shape_b step).foldl
        (fun d cr => pyDictInsert d (overlap_at mask_a mask_b shape_a cr) cr)
        [] =
      ((rough_anchors shape_a shape_b step).map
        (fun cr => (overlap_at mask_a mask_b shape_a cr, cr))).foldl
        (fun acc p => pyDictInsert acc p.1 p.2) [] := by
    rw [List.foldl_map]
  rw [hfold]
  have hkeys : ∀ k,
      k ∈ (((rough_anchors shape_a shape_b step).map
        (fun cr => (overlap_at mask_a mask_b shape_a cr, cr))).foldl
        (fun acc p => pyDictInsert acc p.1 p.2) []).map Prod.fst ↔
      k ∈ (rough_anchors shape_a shape_b step).map
        (overlap_at mask_a mask_b shape_a) := by
    intro k
    rw [mem_keys_foldl]
    simp [List.map_map, Function.comp]
  have hmax := maximum_eq_of_mem_iff _ _ hkeys
  rw [hmax]
  cases hM : ((rough_anchors shape_a shape_b step).map
      (overlap_at mask_a mask_b shape_a)).maximum with
  | bot => rfl
  | coe m =>
    dsimp only
    rw [pyLookup_foldl]
    have hrev : ((rough_anchors shape_a shape_b step).map
        (fun cr => (overlap_at mask_a mask_b shape_a cr, cr))).reverse =
        (rough_anchors shape_a shape_b step).reverse.map
          (fun cr => (overlap_at mask_a mask_b shape_a cr, cr)) := by
      rw [List.reverse_map]
    rw [hrev]
    rw [List.find?_map]
    have hcomp : ((fun p : ℕ × (ℕ × ℕ) => decide (p.1 = m)) ∘
        fun cr : ℕ × ℕ => (overlap_at mask_a mask_b shape_a cr, cr)) =
        fun cr : ℕ × ℕ => decide (overlap_at mask_a mask_b shape_a cr = m) :=
      rfl
    rw [hcomp]
    cases hf : (rough_anchors shape_a shape_b step).reverse.find?
        (fun cr => decide (overlap_at mask_a mask_b shape_a cr = m)) with
    | none => rfl
    | some cr => rfl

/-- Claim C4 as amended: among all step-aligned anchors the anchor with
maximum overlap count is returned, and when several anchors tie on the
maximum, the LAST maximum encountered in raster-scan order is returned
(each dict assignment for an already-seen overlap count overwrites the
stored anchor). -/
theorem rough_crop_returns_last_max (mask_a mask_b : ℕ → ℕ → Bool)
    (shape_a shape_b : ℕ × ℕ) (step : ℕ) :
    rough_crop mask_a mask_b shape_a shape_b step =
      last_max_anchor mask_a mask_b shape_a shape_b step :=
  rough_crop_eq_last_max_aux mask_a mask_b shape_a shape_b step

/-- Claim C4 (counterexample): with a 2 x 2 all-zero reference and a 4 x 4
all-zero target at step 1, all nine anchors tie on the maximum overlap 4;
the first maximum in raster-scan order is (1, 1) but rough_crop returns
(3, 3), the LAST anchor, because each equal overlap count overwrote the
dict entry. -/
theorem rough_crop_tie_counterexample :
    rough_crop (fun _ _ => false) (fun _ _ => false) (2, 2) (4, 4) 1 =
      some (3, 3) ∧
    first_max_anchor (fun _ _ => false) (fun _ _ => false) (2, 2) (4, 4) 1 =
      some (1, 1) ∧
    rough_crop (fun _ _ => false) (fun _ _ => false) (2, 2) (4, 4) 1 ≠
      first_max_anchor (fun _ _ => false) (fun _ _ => false) (2, 2) (4, 4) 1 := by
  refine ⟨by decide, by decide, by decide⟩

/-- Claim C9: for a 1000 x 1000 binary target containing an exact 200 x 200
copy of the reference mask centred at (500, 500) and matching it strictly
worse at every other step-50 anchor, rough_crop returns the anchor
(500, 500) exactly and the match count there is the full 200 * 200 (overlap
fraction 1.0). -/
theorem rough_crop_exact_copy (A B : ℕ → ℕ → Bool)
    (hcopy : ∀ i j, i < 200 → j < 200 → B (400 + i) (400 + j) = A i j)
    (hother : ∀ cr ∈ rough_anchors (200, 200) (1000, 1000) 50,
      cr ≠ (500, 500) → overlap_at A B (200, 200) cr < 40000) :
    rough_crop A B (200, 200) (1000, 1000) 50 = some (500, 500) ∧
    overlap_at A B (200, 200) (500, 500) = 200 * 200 := by
  have hover : overlap_at A B (200, 200) (500, 500) = 200 * 200 := by
    unfold overlap_at mask_match_count crop_region
    dsimp only
    have h500 : (500 : ℕ) - 200 / 2 = 400 := by norm_num
    rw [h500]
    have hterm : ∀ i ∈ Finset.range 200,
        Finset.sum (Finset.range 200)
          (fun j => if B (400 + i) (400 + j) = A i j then (1 : ℕ) else 0) =
          200 := by
      intro i hi
      have hone : ∀ j ∈ Finset.range 200,
          (if B (400 + i) (400 + j) = A i j then (1 : ℕ) else 0) = 1 := by
        intro j hj
        rw [if_pos (hcopy i j (Finset.mem_range.mp hi) (Finset.mem_range.mp hj))]
      rw [Finset.sum_congr rfl hone]
      simp
    rw [Finset.sum_congr rfl hterm]
    simp
  have hover40 : overlap_at A B (200, 200) (500, 500) = 40000 := by
    rw [hover]
  have hmem : (500, 500) ∈ rough_anchors (200, 200) (1000, 1000) 50 := by
    decide
  refine ⟨?_, hover⟩
  rw [rough_crop_eq_last_max_aux]
  unfold last_max_anchor
  dsimp only
  have hmax : ((rough_anchors (200, 200) (1000, 1000) 50).map
      (overlap_at A B (200, 200))).maximum = ((40000 : ℕ) : WithBot ℕ) := by
    apply List.maximum_eq_coe_iff.mpr
    constructor
    · exact List.mem_map.mpr ⟨(500, 500), hmem, hover40⟩
    · intro a ha
      rcases List.mem_map.mp ha with ⟨cr, hcr, rfl⟩
      by_cases hne : cr = (500, 500)
      · subst hne
        rw [hover40]
        norm_cast
      · exact le_of_lt (hother cr hcr hne)
  rw [hmax]
  dsimp only
  apply find?_eq_some_of_unique
  · exact List.mem_reverse.mpr hmem
  · rw [decide_eq_true_eq]
    exact hover40
  · intro y hy hpy
    rw [decide_eq_true_eq] at hpy
    by_contra hne
    have := hother y (List.mem_reverse.mp hy) hne
    omega

/-- For the witness masks the overlap factorizes into a product of
one-dimensional interval-intersection counts. -/
theorem overlap_A9B9 (c r : ℕ) :
    overlap_at A9 B9 (200, 200) (c, r) = cnt200 r * cnt200 c := by
  unfold overlap_at mask_match_count crop_region A9 B9 cnt200
  dsimp only
  have h100 : (200 : ℕ) / 2 = 100 := by norm_num
  rw [h100]
  rw [Finset.sum_mul_sum]
  apply Finset.sum_congr rfl
  intro i _
  apply Finset.sum_congr rfl
  intro j _
  by_cases hP : 400 ≤ r - 100 + i ∧ r - 100 + i < 600 <;>
    by_cases hQ : 400 ≤ c - 100 + j ∧ c - 100 + j < 600 <;>
      simp [hP, hQ]

/-- Membership in the anchor grid, coordinatewise. -/
theorem mem_rough_anchors (sa sb : ℕ × ℕ) (st : ℕ) (cr : ℕ × ℕ) :
    cr ∈ rough_anchors sa sb st ↔
      cr.2 ∈ pyRange (sa.1 / 2) (sb.1 - sa.1 / 2 + 1) st ∧
      cr.1 ∈ pyRange (sa.2 / 2) (sb.2 - sa.2 / 2 + 1) st := by
  obtain ⟨c, r⟩ := cr
  simp only [rough_anchors, List.mem_flatMap, List.mem_map]
  constructor
  · rintro ⟨row, hrow, col, hcol, heq⟩
    cases heq
    exact ⟨hrow, hcol⟩
  · rintro ⟨hr, hc⟩
    exact ⟨r, hr, c, hc, rfl⟩

/-- Each one-dimensional count is at most the window size 200. -/
theorem cnt200_le (v : ℕ) : cnt200 v ≤ 200 := by
  unfold cnt200
  have h1 : ∀ i ∈ Finset.range 200,
      (if 400 ≤ v - 100 + i ∧ v - 100 + i < 600 then (1 : ℕ) else 0) ≤ 1 := by
    intro i _
    by_cases h : 400 ≤ v - 100 + i ∧ v - 100 + i < 600 <;> simp [h]
  have h2 := Finset.sum_le_sum h1
  simpa using h2

set_option maxRecDepth 8000

/-- At every step-50 grid row other than 500 the one-dimensional count is at
most 150. -/
theorem cnt200_grid_off_centre :
    ∀ r ∈ pyRange 100 901 50, r ≠ 500 → cnt200 r ≤ 150 := by decide

/-- Witness for rough_crop_exact_copy: the all-ones reference mask and the
target mask that is 1 exactly on rows and columns 400..599. -/
theorem rough_crop_exact_copy_wit :
    rough_crop A9 B9 (200, 200) (1000, 1000) 50 = some (500, 500) ∧
    overlap_at A9 B9 (200, 200) (500, 500) = 200 * 200 :=
  rough_crop_exact_copy A9 B9
    (by
      intro i j hi hj
      show (decide _ && decide _) = true
      rw [decide_eq_true ⟨by omega, by omega⟩,
        decide_eq_true ⟨by omega, by omega⟩]
      rfl)
    (by
      intro cr hcr hne
      obtain ⟨c, r⟩ := cr
      rw [mem_rough_anchors] at hcr
      norm_num at hcr
      obtain ⟨hr, hc⟩ := hcr
      rw [overlap_A9B9]
      by_cases hr500 : r = 500
      · subst hr500
        have hc500 : c ≠ 500 := fun he => hne (by rw [he])
        have h1 : cnt200 c ≤ 150 := cnt200_grid_off_centre c hc hc500
        have h2 : cnt200 500 ≤ 200 := cnt200_le 500
        calc cnt200 500 * cnt200 c ≤ 200 * 150 := Nat.mul_le_mul h2 h1
        _ < 40000 := by norm_num
      · have h1 : cnt200 r ≤ 150 := cnt200_grid_off_centre r hr hr500
        have h2 : cnt200 c ≤ 200 := cnt200_le c
        calc cnt200 r * cnt200 c ≤ 150 * 200 := Nat.mul_le_mul h1 h2
        _ < 40000 := by norm_num)

end Tipburn
